import Mathlib

/-!
Verification of the simulation-and-evolution engine of the google-dino
neural-network repository.  The definitions below are shallow embeddings of
the TypeScript source: `NeuralNetwork.ts` (feedforward network, weight
packing) and `TRexGame.tsx` (genetic algorithm, collision detection, input
encoding, fitness shaping).  Machine floats are modelled by an abstract
type with the operations the code uses (or by rationals where the claims
require concrete arithmetic); randomness is modelled by explicit oracle
arguments recording the draws the code makes.
-/

namespace Dino

/-- Network layer sizes, from NetworkArchitecture in NeuralNetwork.types.ts. -/
structure NetworkArchitecture where
  inputSize : Nat
  hidden1Size : Nat
  hidden2Size : Nat
  outputSize : Nat
deriving DecidableEq

/-- DEFAULT_ARCHITECTURE from NeuralNetwork.ts: sizes 12, 8, 6, 3. -/
def DEFAULT_ARCHITECTURE : NetworkArchitecture :=
  { inputSize := 12, hidden1Size := 8, hidden2Size := 6, outputSize := 3 }

/-- State of a NeuralNetwork instance (fields of the TypeScript class).
Matrices are lists of rows; `lastInputs` .. `lastOutputs` are the cached
activation vectors predict stores for introspection. -/
structure NeuralNetwork (α : Type) where
  architecture : NetworkArchitecture
  weightsIH1 : List (List α)
  weightsH1H2 : List (List α)
  weightsH2O : List (List α)
  biasH1 : List α
  biasH2 : List α
  biasO : List α
  lastInputs : List α
  lastHidden1 : List α
  lastHidden2 : List α
  lastOutputs : List α
deriving DecidableEq

variable {α : Type} [Inhabited α]

/-- A matrix has `rows` rows each of length `cols`. -/
def wfMatrix (rows cols : Nat) (m : List (List α)) : Prop :=
  m.length = rows ∧ ∀ r ∈ m, r.length = cols

instance (rows cols : Nat) (m : List (List α)) : Decidable (wfMatrix rows cols m) := by
  unfold wfMatrix; infer_instance

/-- Well-formed network: every matrix and bias vector has the dimensions the
architecture prescribes (guaranteed in the source because the constructor
builds the arrays with exactly these dimensions). -/
def WF (n : NeuralNetwork α) : Prop :=
  wfMatrix n.architecture.inputSize n.architecture.hidden1Size n.weightsIH1 ∧
  wfMatrix n.architecture.hidden1Size n.architecture.hidden2Size n.weightsH1H2 ∧
  wfMatrix n.architecture.hidden2Size n.architecture.outputSize n.weightsH2O ∧
  n.biasH1.length = n.architecture.hidden1Size ∧
  n.biasH2.length = n.architecture.hidden2Size ∧
  n.biasO.length = n.architecture.outputSize

instance (n : NeuralNetwork α) : Decidable (WF n) := by
  unfold WF; infer_instance

/-- Row-major traversal of a matrix, following the nested loops of
getWeights: outer index over `rows`, inner over `cols`. -/
def flattenRows (rows cols : Nat) (m : List (List α)) : List α :=
  ((List.range rows).map (fun i =>
    (List.range cols).map (fun j => (m.getD i []).getD j default))).flatten

/-- getWeights from NeuralNetwork.ts: the three matrices row-major in the
order IH1, H1H2, H2O, then the three bias vectors. -/
def getWeights (n : NeuralNetwork α) : List α :=
  flattenRows n.architecture.inputSize n.architecture.hidden1Size n.weightsIH1 ++
  flattenRows n.architecture.hidden1Size n.architecture.hidden2Size n.weightsH1H2 ++
  flattenRows n.architecture.hidden2Size n.architecture.outputSize n.weightsH2O ++
  n.biasH1 ++ n.biasH2 ++ n.biasO

/-- getTotalWeights from NeuralNetwork.ts. -/
def getTotalWeights (a : NetworkArchitecture) : Nat :=
  a.inputSize * a.hidden1Size + a.hidden1Size * a.hidden2Size +
    a.hidden2Size * a.outputSize +
    (a.hidden1Size + a.hidden2Size + a.outputSize)

/-- Reading a matrix back out of a flat vector: the cell (i, j) of the
matrix comes from position i * cols + j, matching the running index of the
sequential `weights[index++]` reads in setWeights. -/
def unflattenRows (rows cols : Nat) (v : List α) : List (List α) :=
  (List.range rows).map (fun i =>
    (List.range cols).map (fun j => v.getD (i * cols + j) default))

/-- setWeights from NeuralNetwork.ts.  The source overwrites every cell of
the existing architecture-dimensioned matrices with `weights[index++]`;
the running index is expressed here through per-section offsets. -/
def setWeights (n : NeuralNetwork α) (w : List α) : NeuralNetwork α :=
  let a := n.architecture
  let s1 := a.inputSize * a.hidden1Size
  let s2 := a.hidden1Size * a.hidden2Size
  let s3 := a.hidden2Size * a.outputSize
  { n with
    weightsIH1 := unflattenRows a.inputSize a.hidden1Size w
    weightsH1H2 := unflattenRows a.hidden1Size a.hidden2Size (w.drop s1)
    weightsH2O := unflattenRows a.hidden2Size a.outputSize (w.drop (s1 + s2))
    biasH1 := (List.range a.hidden1Size).map (fun i => w.getD (s1 + s2 + s3 + i) default)
    biasH2 := (List.range a.hidden2Size).map (fun i =>
      w.getD (s1 + s2 + s3 + a.hidden1Size + i) default)
    biasO := (List.range a.outputSize).map (fun i =>
      w.getD (s1 + s2 + s3 + a.hidden1Size + a.hidden2Size + i) default) }

/-- Error thrown by predict when the input vector has the wrong length. -/
inductive PredictError where
  | shapeMismatch (expected got : Nat)
deriving DecidableEq

/-- One layer of the forward pass: for each output index j the sum starts
at the bias and accumulates input i times weight (i, j) in loop order,
then the activation is applied. -/
def layerForward [Add α] [Mul α] (act : α → α) (inSize outSize : Nat)
    (w : List (List α)) (bias : List α) (inputs : List α) : List α :=
  (List.range outSize).map (fun j =>
    act ((List.range inSize).foldl
      (fun s i => s + inputs.getD i default * ((w.getD i []).getD j default))
      (bias.getD j default)))

/-- predict from NeuralNetwork.ts, parameterised by the activation
function (the source instantiates it with sigmoid).  Returns the updated
network (the four cached activation vectors) together with the output
vector, or the ShapeMismatch error the source throws. -/
def predict [Add α] [Mul α] (act : α → α) (n : NeuralNetwork α)
    (inputs : List α) : Except PredictError (NeuralNetwork α × List α) :=
  if inputs.length ≠ n.architecture.inputSize then
    Except.error (PredictError.shapeMismatch n.architecture.inputSize inputs.length)
  else
    let hidden1 := layerForward act n.architecture.inputSize
      n.architecture.hidden1Size n.weightsIH1 n.biasH1 inputs
    let hidden2 := layerForward act n.architecture.hidden1Size
      n.architecture.hidden2Size n.weightsH1H2 n.biasH2 hidden1
    let outputs := layerForward act n.architecture.hidden2Size
      n.architecture.outputSize n.weightsH2O n.biasO hidden2
    Except.ok ({ n with lastInputs := inputs, lastHidden1 := hidden1,
                        lastHidden2 := hidden2, lastOutputs := outputs }, outputs)

instance : Inhabited (NeuralNetwork α) :=
  ⟨{ architecture := DEFAULT_ARCHITECTURE, weightsIH1 := [], weightsH1H2 := [],
     weightsH2O := [], biasH1 := [], biasH2 := [], biasO := [], lastInputs := [],
     lastHidden1 := [], lastHidden2 := [], lastOutputs := [] }⟩

/-- Network produced by `new NeuralNetwork(arch)` followed by
`setWeights(w)`.  The random weights drawn by the constructor are
irrelevant because the constructor builds the matrices with exactly the
architecture dimensions and setWeights then overwrites every cell; the
cached activation vectors of a fresh instance are empty. -/
def networkFromFlat (a : NetworkArchitecture) (w : List α) : NeuralNetwork α :=
  setWeights
    { architecture := a, weightsIH1 := [], weightsH1H2 := [], weightsH2O := [],
      biasH1 := [], biasH2 := [], biasO := [], lastInputs := [],
      lastHidden1 := [], lastHidden2 := [], lastOutputs := [] } w

/-- clone from NeuralNetwork.ts: a fresh network of the same architecture
given the weights of the original via setWeights(getWeights()). -/
def clone (n : NeuralNetwork α) : NeuralNetwork α :=
  networkFromFlat n.architecture (getWeights n)

/-- crossoverSinglePoint from TRexGame.tsx, with the randomly drawn cut
point made explicit.  The source computes len = min of the two lengths,
returns the empty vector when len = 0, and otherwise concatenates the
left slice of a with the right slice of b at the cut point. -/
def crossoverSinglePoint (a b : List α) (point : Nat) : List α :=
  if min a.length b.length = 0 then []
  else a.take point ++ b.drop point

/-- The cut points the source can draw: point = 1 + floor(r * (len - 1))
with r uniform in [0, 1), hence 1 when len = 1 and otherwise any value in
[1, len - 1]. -/
def drawablePoint (len point : Nat) : Prop :=
  1 ≤ point ∧ point ≤ max 1 (len - 1)

instance (len point : Nat) : Decidable (drawablePoint len point) := by
  unfold drawablePoint; infer_instance

/-- mutateWeights from TRexGame.tsx with the per-weight random draws made
explicit: `coin i` records whether the uniform draw fell below the
mutation rate, and `gauss i` the Box-Muller gaussian sample; sigma is the
perturbation scale (0.02 at the call site). -/
def mutateWeights [Add α] [Mul α] (w : List α) (coin : Nat → Bool)
    (gauss : Nat → α) (sigma : α) : List α :=
  w.mapIdx (fun i x => if coin i then x + gauss i * sigma else x)

section GeneticAlgorithm

variable {β : Type} [LinearOrder β] [Inhabited β]

/-- Index of the best agent: the head of the fitness ranking.  The source
sorts index-fitness pairs by fitness descending with a stable sort and
takes the first index; that head is computed here directly as a fold that
keeps the earliest index of maximal fitness (a strictly-greater challenger
replaces the incumbent, so ties keep the earlier index, exactly as the
stable descending sort does). -/
def bestIndex (fitness : List β) : Nat :=
  (List.range fitness.length).foldl
    (fun best i => if fitness.getD i default > fitness.getD best default then i else best) 0

/-- One tournament of buildParentsPool: the first draw seeds the incumbent
and each of the k - 1 following draws replaces it when strictly fitter. -/
def tournamentWinner (fitness : List β) (k : Nat) (draw : Nat → Nat) : Nat :=
  (List.range (k - 1)).foldl
    (fun best t =>
      let challenger := draw (t + 1)
      if fitness.getD challenger default > fitness.getD best default then challenger
      else best)
    (draw 0)

/-- buildParentsPool from TRexGame.tsx: one tournament per population
slot; `draw slot round` records the uniform index draws. -/
def buildParentsPool (networks : List (NeuralNetwork α)) (fitness : List β)
    (k : Nat) (draw : Nat → Nat → Nat) : List (NeuralNetwork α) :=
  (List.range networks.length).map (fun slot =>
    networks.getD (tournamentWinner fitness k (draw slot)) default)

/-- Record of all random draws one generation rollover makes. -/
structure GAOracle (α : Type) where
  tournamentDraw : Nat → Nat → Nat
  shuffled : List Nat
  pick1 : Nat → Nat
  pick2 : Nat → Nat
  cut : Nat → Nat
  coin : Nat → Nat → Bool
  gauss : Nat → Nat → α
  sigma : α

/-- One iteration of the diversity-preservation loop: while the next
population is still short of the population size, clone the agent at the
next shuffled index unless it is the best index. -/
def diversityStep (networks : List (NeuralNetwork α)) (shuffled : List Nat)
    (bestIdx popSize : Nat) (acc : List (NeuralNetwork α)) (i : Nat) :
    List (NeuralNetwork α) :=
  if acc.length < popSize then
    let randomIdx := shuffled.getD i 0
    if randomIdx ≠ bestIdx then acc ++ [clone (networks.getD randomIdx default)]
    else acc
  else acc

/-- One offspring: two parents drawn from the pool, single-point
crossover of their flat weights, gaussian mutation, and a fresh
DEFAULT_ARCHITECTURE network set from the result (as the source
hard-codes DEFAULT_ARCHITECTURE for children). -/
def offspringChild [Add α] [Mul α] (pool : List (NeuralNetwork α))
    (o : GAOracle α) (it : Nat) : NeuralNetwork α :=
  let p1 := pool.getD (o.pick1 it) default
  let p2 := pool.getD (o.pick2 it) default
  let w1 := getWeights p1
  let w2 := getWeights p2
  let childW := crossoverSinglePoint w1 w2 (o.cut it)
  let mutated := mutateWeights childW (o.coin it) (o.gauss it) o.sigma
  networkFromFlat DEFAULT_ARCHITECTURE mutated

/-- The offspring while-loop: push one child per iteration until the next
population reaches the population size.  Each iteration grows the list by
exactly one, so the loop runs at most popSize iterations; that bound is
made explicit as structural fuel (the call site passes popSize, which is
always sufficient).  The iteration counter handed to the oracle is the
current length, which increases by one per iteration. -/
def fillOffspring [Add α] [Mul α] (pool : List (NeuralNetwork α))
    (o : GAOracle α) (popSize : Nat) :
    Nat → List (NeuralNetwork α) → List (NeuralNetwork α)
  | 0, acc => acc
  | fuel + 1, acc =>
    if acc.length < popSize then
      fillOffspring pool o popSize fuel
        (acc ++ [offspringChild pool o acc.length])
    else acc

/-- The population-construction part of handleGenerationEnd: elitism slot,
diversity survivors (floor of a tenth of the population, the float factor
0.1 modelled by Nat division by 10), then offspring fill.  Tournament
size is max 2 (floor (N / 4)) as at the call site. -/
def nextGeneration [Add α] [Mul α] (networks : List (NeuralNetwork α))
    (fitness : List β) (o : GAOracle α) : List (NeuralNetwork α) :=
  let populationSize := networks.length
  let bestIdx := bestIndex fitness
  let pool := buildParentsPool networks fitness (max 2 (populationSize / 4))
    o.tournamentDraw
  let elite := clone (networks.getD bestIdx default)
  let randomSurvivors := populationSize / 10
  let afterSurvivors := (List.range randomSurvivors).foldl
    (diversityStep networks o.shuffled bestIdx populationSize) [elite]
  fillOffspring pool o populationSize populationSize afterSurvivors

/-- The best-ever update of handleGenerationEnd: the stored record
(fitness and weight vector) is replaced exactly when the fitness of the
best of this generation strictly exceeds the stored fitness. -/
def updateBest (rec cur : β × List α) : β × List α :=
  if cur.1 > rec.1 then cur else rec

end GeneticAlgorithm

/-! Game model: constants from NeuralNetwork.types.ts, collision
detection, the shared previous-distance state of feature 11, and the
fitness-accrual slice of the per-tick update loop, over exact rationals. -/

/-- Logical frame rate (FPS constant). -/
def FPS : ℚ := 60

/-- GAME_CONFIG.MAX_SPEED. -/
def MAX_SPEED : ℚ := 13

/-- TREX_CONFIG geometry constants. -/
def TREX_WIDTH : ℚ := 44

/-- TREX_CONFIG.HEIGHT. -/
def TREX_HEIGHT : ℚ := 47

/-- TREX_CONFIG.HEIGHT_DUCK. -/
def TREX_HEIGHT_DUCK : ℚ := 25

/-- TREX_CONFIG.START_X_POS. -/
def START_X_POS : ℚ := 50

/-- TREX_CONFIG.GRAVITY. -/
def TREX_GRAVITY : ℚ := 6/10

/-- TREX_CONFIG.DROP_VELOCITY. -/
def DROP_VELOCITY : ℚ := -5

/-- TREX_CONFIG.MAX_JUMP_HEIGHT. -/
def MAX_JUMP_HEIGHT : ℚ := 30

/-- An axis-aligned collision box (CollisionBox interface). -/
structure CollisionBox where
  x : ℚ
  y : ℚ
  width : ℚ
  height : ℚ
deriving DecidableEq

/-- TREX_COLLISION_BOXES.RUNNING (also used while jumping). -/
def RUNNING_COLLISION_BOXES : List CollisionBox :=
  [⟨22, 0, 17, 16⟩, ⟨1, 18, 30, 9⟩, ⟨10, 35, 14, 8⟩,
   ⟨1, 24, 29, 5⟩, ⟨5, 30, 21, 4⟩, ⟨9, 34, 15, 4⟩]

/-- TREX_COLLISION_BOXES.DUCKING. -/
def DUCKING_COLLISION_BOXES : List CollisionBox := [⟨1, 18, 55, 25⟩]

/-- Obstacle type tags. -/
inductive ObstacleType where
  | CACTUS_SMALL
  | CACTUS_LARGE
  | PTERODACTYL
deriving DecidableEq

/-- The runtime obstacle fields the collision and fitness code reads;
rewardedBy is the per-agent one-time pass-bonus marker set. -/
structure Obstacle where
  xPos : ℚ
  yPos : ℚ
  width : ℚ
  height : ℚ
  type : ObstacleType
  remove : Bool
  collisionBoxes : List CollisionBox
  rewardedBy : List Nat
deriving DecidableEq

/-- Agent status values. -/
inductive TRexStatus where
  | WAITING
  | RUNNING
  | JUMPING
  | DUCKING
  | CRASHED
deriving DecidableEq

/-- TREX_ANIM_FRAMES frame lists (sprite x offsets). -/
def animFrames : TRexStatus → List ℚ
  | .WAITING => [44, 0]
  | .RUNNING => [88, 132]
  | .CRASHED => [220]
  | .JUMPING => [0]
  | .DUCKING => [264, 323]

/-- TREX_ANIM_FRAMES per-status frame durations. -/
def animMsPerFrame : TRexStatus → ℚ
  | .WAITING => 1000/3
  | .RUNNING => 1000/12
  | .CRASHED => 1000/60
  | .JUMPING => 1000/60
  | .DUCKING => 1000/8

/-- The runtime agent record (TRex interface). -/
structure TRex where
  id : Nat
  xPos : ℚ
  yPos : ℚ
  groundYPos : ℚ
  minJumpHeight : ℚ
  jumping : Bool
  ducking : Bool
  jumpVelocity : ℚ
  reachedMinHeight : Bool
  speedDrop : Bool
  currentFrame : Nat
  timer : ℚ
  msPerFrame : ℚ
  currentAnimFrames : List ℚ
  status : TRexStatus
  alive : Bool
  lastLandTime : ℚ
  duckUntilX : Option ℚ
deriving DecidableEq

instance : Inhabited TRex :=
  ⟨{ id := 0, xPos := 0, yPos := 0, groundYPos := 0, minJumpHeight := 0,
     jumping := false, ducking := false, jumpVelocity := 0,
     reachedMinHeight := false, speedDrop := false, currentFrame := 0,
     timer := 0, msPerFrame := 0, currentAnimFrames := [],
     status := TRexStatus.WAITING, alive := true, lastLandTime := 0,
     duckUntilX := none }⟩

/-- The strict-overlap test used by both collision phases. -/
def boxesOverlap (a b : CollisionBox) : Prop :=
  a.x < b.x + b.width ∧ a.x + a.width > b.x ∧
  a.y < b.y + b.height ∧ a.y + a.height > b.y

instance (a b : CollisionBox) : Decidable (boxesOverlap a b) := by
  unfold boxesOverlap; infer_instance

/-- Broad-phase agent box: position inset by one pixel, dimensions shrunk
by two, height per ducking state. -/
def tRexOuterBox (t : TRex) : CollisionBox :=
  ⟨t.xPos + 1, t.yPos + 1, TREX_WIDTH - 2,
   (if t.ducking then TREX_HEIGHT_DUCK else TREX_HEIGHT) - 2⟩

/-- Broad-phase obstacle box with the same one-pixel inset. -/
def obstacleOuterBox (ob : Obstacle) : CollisionBox :=
  ⟨ob.xPos + 1, ob.yPos + 1, ob.width - 2, ob.height - 2⟩

/-- Sub-hitbox set of the agent: ducking has its own set, jumping shares
the running set. -/
def tRexCollisionBoxes (t : TRex) : List CollisionBox :=
  if t.ducking then DUCKING_COLLISION_BOXES else RUNNING_COLLISION_BOXES

/-- The fine-phase pair sequence in loop order: agent sub-boxes outer,
obstacle sub-boxes inner, each translated to its world position. -/
def adjustedPairs (t : TRex) (ob : Obstacle) : List (CollisionBox × CollisionBox) :=
  ((tRexCollisionBoxes t).map (fun tb =>
    ob.collisionBoxes.map (fun obb =>
      (CollisionBox.mk (t.xPos + tb.x) (t.yPos + tb.y) tb.width tb.height,
       CollisionBox.mk (ob.xPos + obb.x) (ob.yPos + obb.y) obb.width obb.height)))).flatten

/-- The nested fine-phase loops with the early return of the source: the
first overlapping pair sets alive to false and stops; no later pair is
examined.  Nothing else about the agent is changed. -/
def firstHitKill (t : TRex) : List (CollisionBox × CollisionBox) → TRex
  | [] => t
  | (a, b) :: rest =>
    if boxesOverlap a b then { t with alive := false } else firstHitKill t rest

/-- Collision handling of one agent against the front obstacle
(checkCollisions body; ENABLE_NOCLIP is the constant false, so its early
return never fires). -/
def checkCollisionTRex (ob : Obstacle) (t : TRex) : TRex :=
  if ¬ t.alive then t
  else if boxesOverlap (tRexOuterBox t) (obstacleOuterBox ob) then
    firstHitKill t (adjustedPairs t ob)
  else t

/-- checkCollisions from TRexGame.tsx: only the first obstacle is
checked, and only when present and not scheduled for removal. -/
def checkCollisions (obstacles : List Obstacle) (tRexes : List TRex) : List TRex :=
  match obstacles with
  | [] => tRexes
  | ob :: _ => if ob.remove then tRexes else tRexes.map (checkCollisionTRex ob)

/-- The dDistance computation of getGameInputsForNN (feature 11).  The
closure state _prevDist lives on the function object and is a single
value shared by every call; Infinity is modelled as none.  Given the
shared per-tick closest distance (none when no obstacle) and the current
stored previous distance, returns the feature value and the new stored
value. -/
def dDistanceStep (sharedDist prevDist : Option ℚ) : ℚ × Option ℚ :=
  match sharedDist with
  | none => (0, none)
  | some d =>
    let dD := match prevDist with
      | none => 1
      | some p => max (-1) (min 1 ((p - d) * FPS / 600))
    (dD, some d)

/-- The per-tick agent loop as far as feature 11 is concerned: agents are
visited in index order, dead agents are skipped (no call is made for
them), every alive agent is given the same shared closest distance, and
the single closure value is threaded from call to call.  Returns each
agent's computed feature (none for dead agents) and the final stored
value. -/
def tickDDistances : List Bool → Option ℚ → Option ℚ → List (Option ℚ) × Option ℚ
  | [], _, prev => ([], prev)
  | a :: rest, sharedDist, prev =>
    if a then
      let s := dDistanceStep sharedDist prev
      let r := tickDDistances rest sharedDist s.2
      (some s.1 :: r.1, r.2)
    else
      let r := tickDDistances rest sharedDist prev
      (none :: r.1, r.2)

/-- Whether the obstacle type name contains CACTUS. -/
def isCactus : ObstacleType → Bool
  | .CACTUS_SMALL => true
  | .CACTUS_LARGE => true
  | .PTERODACTYL => false

/-- The heuristically correct action of the fitness shaper when an
obstacle is close: duck (1) or jump (0) for a pterodactyl depending on
whether it flies low, jump for a cactus only when time to impact is
under 0.3 seconds, otherwise run (2). -/
def correctActionFor (t : TRex) (ob : Obstacle) (minDist speed : ℚ) : Nat :=
  if ob.type = ObstacleType.PTERODACTYL then
    if ob.yPos + ob.height > t.groundYPos - TREX_HEIGHT_DUCK then 1 else 0
  else if isCactus ob.type then
    if minDist / (speed * FPS / 1000) < 3/10 then 0 else 2
  else 2

/-- The action-evaluation rewards and penalties of the update loop
(fitness shaping when an obstacle is close, far, or absent). -/
def actionReward (t : TRex) (closest : Option Obstacle) (minDist : ℚ)
    (actionIdx : Nat) (speed : ℚ) : ℚ :=
  match closest with
  | some ob =>
    if minDist < 100 then
      let correct := correctActionFor t ob minDist speed
      if actionIdx = correct then
        if correct = 1 ∧ ob.type = ObstacleType.PTERODACTYL then 100 else 20
      else
        if correct = 1 ∧ actionIdx ≠ 1 ∧ ob.type = ObstacleType.PTERODACTYL then -50
        else -15
    else
      if actionIdx = 0 then -20 else if actionIdx = 1 then -2 else 0
  | none =>
    if actionIdx = 2 then 3
    else if actionIdx = 0 then -20
    else if actionIdx = 1 then -5
    else 0

/-- One-time pass-through bonus: 30 per not-yet-rewarded obstacle whose
trailing edge is behind the agent, marking the agent id on the obstacle. -/
def passBonus (t : TRex) : List Obstacle → ℚ × List Obstacle
  | [] => (0, [])
  | ob :: rest =>
    let r := passBonus t rest
    if ob.remove then (r.1, ob :: r.2)
    else if ob.xPos + ob.width < t.xPos ∧ t.id ∉ ob.rewardedBy then
      (r.1 + 30, { ob with rewardedBy := t.id :: ob.rewardedBy } :: r.2)
    else (r.1, ob :: r.2)

/-- The per-agent fitness accrual of one tick, in index order, skipping
dead agents entirely (the continue at the top of the loop).  The network
decision is recorded by the oracle `act`; the agent fields the fitness
code reads (id, xPos, groundYPos) are not modified by the action
application that precedes the accrual in the source, so the accrual is
computed from the tick-start agent records. -/
def fitnessLoop (tRexes : List TRex) (act : Nat → Nat) (deltaTime speed : ℚ)
    (closest : Option Obstacle) (minDist : ℚ)
    (fitness : List ℚ) (obstacles : List Obstacle) : List ℚ × List Obstacle :=
  (List.range tRexes.length).foldl
    (fun st i =>
      let t := tRexes.getD i default
      if ¬ t.alive then st
      else
        let base := deltaTime * (1/10)
        let ar := actionReward t closest minDist (act i) speed
        let pb := passBonus t st.2
        let speedBonus := speed / MAX_SPEED * 2
        (st.1.set i (st.1.getD i 0 + base + ar + pb.1 + speedBonus), pb.2))
    (fitness, obstacles)

/-- updateTRexStatus from TRexGame.tsx: on a status change, reset the
animation frame and adopt the frame profile of the new status. -/
def updateTRexStatus (t : TRex) (status : TRexStatus) : TRex :=
  if t.status ≠ status then
    { t with status := status, currentFrame := 0,
             msPerFrame := animMsPerFrame status,
             currentAnimFrames := animFrames status }
  else t

/-- endTRexJump: clamp the velocity to DROP_VELOCITY once the minimum
height has been reached. -/
def endTRexJump (t : TRex) : TRex :=
  if t.reachedMinHeight ∧ t.jumpVelocity < DROP_VELOCITY then
    { t with jumpVelocity := DROP_VELOCITY }
  else t

/-- updateTRexJump: apply the rounded velocity to the vertical position,
apply gravity, track minimum height, possibly end the jump early, and
land (clamp to ground, zero the velocity, back to RUNNING) once the
ground is reached. -/
def updateTRexJump (t : TRex) (deltaTime now : ℚ) : TRex :=
  let framesElapsed := deltaTime / t.msPerFrame
  let yPos2 := t.yPos + ((round (t.jumpVelocity * framesElapsed) : ℤ) : ℚ)
  let v2 := t.jumpVelocity + TREX_GRAVITY * framesElapsed
  let reached := if yPos2 < t.minJumpHeight ∨ t.speedDrop then true else t.reachedMinHeight
  let t2 := { t with yPos := yPos2, jumpVelocity := v2, reachedMinHeight := reached }
  let t3 := if yPos2 < MAX_JUMP_HEIGHT ∨ t2.speedDrop then endTRexJump t2 else t2
  if t3.yPos ≥ t3.groundYPos then
    updateTRexStatus
      { t3 with yPos := t3.groundYPos, jumping := false, jumpVelocity := 0,
                reachedMinHeight := false, speedDrop := false, lastLandTime := now }
      TRexStatus.RUNNING
  else t3

/-- The per-agent body of updateAllTRexes: dead agents are skipped;
otherwise the animation timer and frame advance and jump physics run. -/
def updateAliveTRex (deltaTime now : ℚ) (t : TRex) : TRex :=
  if ¬ t.alive then t
  else
    let timer2 := t.timer + deltaTime
    let t2 :=
      if timer2 ≥ t.msPerFrame then
        { t with timer := 0,
                 currentFrame := if t.currentFrame = t.currentAnimFrames.length - 1
                                 then 0 else t.currentFrame + 1 }
      else { t with timer := timer2 }
    if t2.jumping then updateTRexJump t2 deltaTime now else t2

/-- updateAllTRexes. -/
def updateAllTRexes (deltaTime now : ℚ) (tRexes : List TRex) : List TRex :=
  tRexes.map (updateAliveTRex deltaTime now)

/-- The per-tick shared closest-obstacle scan (all agents share the fixed
horizontal position START_X_POS): nearest not-removed obstacle strictly
ahead, with its distance. -/
def globalClosest (obstacles : List Obstacle) : Option (Obstacle × ℚ) :=
  obstacles.foldl
    (fun acc ob =>
      if ¬ ob.remove ∧ ob.xPos > START_X_POS then
        let d := ob.xPos - START_X_POS
        match acc with
        | none => some (ob, d)
        | some pr => if d < pr.2 then some (ob, d) else acc
      else acc)
    none

/-- The whole-simulation state the fitness claims range over. -/
structure SimState where
  tRexes : List TRex
  fitness : List ℚ
  obstacles : List Obstacle
deriving DecidableEq

/-- Everything one tick draws from outside the modelled state: the
network decisions per agent, the frame timing, the current speed, whether
the clear time has elapsed (collision gate), and the obstacle update
(movement, spawning and removal, which touch neither agents nor
fitness). -/
structure TickOracle where
  act : Nat → Nat
  deltaTime : ℚ
  now : ℚ
  speed : ℚ
  collisionsEnabled : Bool
  obsUpdate : List Obstacle → List Obstacle

/-- The fitness-relevant slice of one update() tick in source order: the
shared closest-obstacle scan, the per-agent decision and fitness loop,
agent physics, the obstacle update, then collision detection (gated by
the clear time). -/
def simTick (o : TickOracle) (s : SimState) : SimState :=
  let cp := globalClosest s.obstacles
  let closest := cp.map Prod.fst
  let minDist := match cp with
    | some pr => pr.2
    | none => 0
  let fr := fitnessLoop s.tRexes o.act o.deltaTime o.speed closest minDist
    s.fitness s.obstacles
  let tRexes2 := updateAllTRexes o.deltaTime o.now s.tRexes
  let obstacles3 := o.obsUpdate fr.2
  let tRexes3 := if o.collisionsEnabled then checkCollisions obstacles3 tRexes2
                 else tRexes2
  { tRexes := tRexes3, fitness := fr.1, obstacles := obstacles3 }

/-! Concrete instances used by witnesses and counterexamples. -/

/-- A small architecture for concrete witness networks. -/
def sampleArch : NetworkArchitecture :=
  { inputSize := 1, hidden1Size := 1, hidden2Size := 1, outputSize := 1 }

/-- A concrete well-formed network over the integers. -/
def sampleNet : NeuralNetwork ℤ := networkFromFlat sampleArch (List.replicate 6 1)

/-- The state of sampleNet after predict id [1]: caches filled, weights
untouched. -/
def sampleNet2 : NeuralNetwork ℤ :=
  { sampleNet with lastInputs := [1], lastHidden1 := [2],
                   lastHidden2 := [3], lastOutputs := [4] }

/-- A running agent standing on the ground (canvas height 150, ground at
150 - 10 - 47 = 93). -/
def crashTRex : TRex :=
  { id := 1, xPos := 50, yPos := 93, groundYPos := 93, minJumpHeight := 63,
    jumping := false, ducking := false, jumpVelocity := 0,
    reachedMinHeight := false, speedDrop := false, currentFrame := 0,
    timer := 0, msPerFrame := 1000/12, currentAnimFrames := animFrames TRexStatus.RUNNING,
    status := TRexStatus.RUNNING, alive := true, lastLandTime := 0,
    duckUntilX := none }

/-- A small cactus (type data from OBSTACLE_TYPES) placed on the agent. -/
def crashObstacle : Obstacle :=
  { xPos := 50, yPos := 105, width := 17, height := 35,
    type := ObstacleType.CACTUS_SMALL, remove := false,
    collisionBoxes := [⟨0, 7, 5, 27⟩, ⟨4, 0, 6, 34⟩, ⟨10, 4, 7, 14⟩],
    rewardedBy := [] }

/-- The crash agent with the ducking flag set, used by the collision
witness (ducking agents have a single sub-hitbox, giving a one-pair fine
phase). -/
def duckTRex : TRex := { crashTRex with ducking := true }

/-- An obstacle with a single full-size collision box covering the agent. -/
def bigObstacle : Obstacle :=
  { xPos := 50, yPos := 93, width := 44, height := 47,
    type := ObstacleType.CACTUS_LARGE, remove := false,
    collisionBoxes := [⟨0, 0, 44, 47⟩], rewardedBy := [] }

/-- Two networks with identical weights (DEFAULT_ARCHITECTURE, all
weights zero) for the elite-uniqueness counterexample. -/
def cNets : List (NeuralNetwork ℤ) :=
  [networkFromFlat DEFAULT_ARCHITECTURE (List.replicate 179 0),
   networkFromFlat DEFAULT_ARCHITECTURE (List.replicate 179 0)]

/-- Fitness values making slot 0 the best. -/
def cFits : List ℤ := [1, 0]

/-- A concrete random-draw record: every tournament and parent draw picks
index 0, the cut point is 1, and no mutation coin fires. -/
def cOracle : GAOracle ℤ :=
  { tournamentDraw := fun _ _ => 0, shuffled := [0, 1],
    pick1 := fun _ => 0, pick2 := fun _ => 0, cut := fun _ => 1,
    coin := fun _ _ => false, gauss := fun _ _ => 0, sigma := 0 }

/-- A one-agent state whose agent is already dead, for the frozen-fitness
witness. -/
def deadState : SimState :=
  { tRexes := [{ crashTRex with alive := false }], fitness := [7],
    obstacles := [crashObstacle] }

/-- A concrete tick record (identity obstacle update). -/
def sampleTick : TickOracle :=
  { act := fun _ => 2, deltaTime := 16, now := 1000, speed := 6,
    collisionsEnabled := true, obsUpdate := fun obs => obs }

/-! Helper lemmas about list indexing, used by the weight-packing
roundtrip proofs. -/

theorem range_map_getD {α : Type} (v : List α) (d : α) (k : Nat)
    (hk : k ≤ v.length) :
    (List.range k).map (fun j => v.getD j d) = v.take k := by
  apply List.ext_getElem
  · simp [Nat.min_eq_left hk]
  · intro i h1 h2
    simp only [List.getElem_map, List.getElem_range, List.getElem_take]
    exact List.getD_eq_getElem v d (by simp at h1; omega)

theorem getD_drop {α : Type} (v : List α) (d : α) (s j : Nat) :
    (v.drop s).getD j d = v.getD (s + j) d := by
  rcases lt_or_ge (s + j) v.length with h | h
  · rw [List.getD_eq_getElem _ d (by simp; omega), List.getD_eq_getElem _ d h]
    simp [List.getElem_drop]
  · rw [List.getD_eq_default _ d (by simp; omega), List.getD_eq_default _ d h]

theorem range_map_getD_add {α : Type} (v : List α) (d : α) (s k : Nat)
    (h : s + k ≤ v.length) :
    (List.range k).map (fun i => v.getD (s + i) d) = (v.drop s).take k := by
  rw [← range_map_getD (v.drop s) d k (by simp; omega)]
  simp [getD_drop]

theorem length_flatten_wf {α : Type} {rows cols : Nat} {m : List (List α)}
    (h : wfMatrix rows cols m) : m.flatten.length = rows * cols := by
  obtain ⟨hlen, hrow⟩ := h
  rw [List.length_flatten]
  have hmap : m.map List.length = List.replicate rows cols := by
    have h2 : (m.map List.length).length = rows := by simp [hlen]
    rw [← h2]
    apply List.eq_replicate_of_mem
    intro b hb
    obtain ⟨r, hr, hrb⟩ := List.mem_map.mp hb
    exact hrb ▸ hrow r hr
  rw [hmap, List.sum_replicate, smul_eq_mul]

theorem flatten_getD {α : Type} [Inhabited α] (cols : Nat) (m : List (List α))
    (hrow : ∀ r ∈ m, r.length = cols) (i j : Nat) (hi : i < m.length)
    (hj : j < cols) :
    m.flatten.getD (i * cols + j) default = (m.getD i []).getD j default := by
  induction m generalizing i with
  | nil => simp at hi
  | cons r tl ih =>
    have hr : r.length = cols := hrow r (by simp)
    cases i with
    | zero =>
      simp only [List.flatten_cons, Nat.zero_mul, Nat.zero_add]
      rw [List.getD_append _ _ _ _ (by omega)]
      rfl
    | succ i2 =>
      simp only [List.flatten_cons]
      rw [List.getD_append_right _ _ _ _ (by rw [hr]; calc
        cols ≤ i2 * cols + cols := by omega
        _ ≤ (i2 + 1) * cols + j := by rw [Nat.succ_mul]; omega)]
      have harith : (i2 + 1) * cols + j - r.length = i2 * cols + j := by
        rw [hr, Nat.succ_mul]; omega
      rw [harith]
      exact ih (fun q hq => hrow q (by simp [hq])) i2 (by simp at hi; omega)

theorem flattenRows_eq_flatten {α : Type} [Inhabited α] {rows cols : Nat}
    {m : List (List α)} (h : wfMatrix rows cols m) :
    flattenRows rows cols m = m.flatten := by
  obtain ⟨hlen, hrow⟩ := h
  unfold flattenRows
  congr 1
  subst hlen
  apply List.ext_getElem
  · simp
  · intro i h1 h2
    simp only [List.getElem_map, List.getElem_range]
    have hi : i < m.length := by simp at h1; omega
    have hr : (m.getD i []).length = cols := by
      rw [List.getD_eq_getElem _ _ hi]
      exact hrow _ (List.getElem_mem hi)
    rw [range_map_getD _ _ cols (by omega), ← hr, List.take_length,
      List.getD_eq_getElem _ _ hi]

theorem unflatten_wf {α : Type} [Inhabited α] (rows cols : Nat) (v : List α) :
    wfMatrix rows cols (unflattenRows rows cols v) := by
  constructor
  · simp [unflattenRows]
  · intro r hr
    simp only [unflattenRows, List.mem_map] at hr
    obtain ⟨i, _, hi⟩ := hr
    simp [← hi]

theorem unflatten_flatten {α : Type} [Inhabited α] {rows cols : Nat}
    {m : List (List α)} (h : wfMatrix rows cols m) (rest : List α) :
    unflattenRows rows cols (m.flatten ++ rest) = m := by
  have hflen : m.flatten.length = rows * cols := length_flatten_wf h
  obtain ⟨hlen, hrow⟩ := h
  unfold unflattenRows
  subst hlen
  apply List.ext_getElem
  · simp
  · intro i h1 h2
    simp only [List.getElem_map, List.getElem_range]
    have hi : i < m.length := by simp at h1; omega
    have hr : (m.getD i []).length = cols := by
      rw [List.getD_eq_getElem _ _ hi]
      exact hrow _ (List.getElem_mem hi)
    have key : ∀ j ∈ List.range cols,
        (m.flatten ++ rest).getD (i * cols + j) default =
        (m.getD i []).getD j default := by
      intro j hj
      have hjc : j < cols := List.mem_range.mp hj
      rw [List.getD_append _ _ _ _ (by
        rw [hflen]
        calc i * cols + j < i * cols + cols := by omega
          _ ≤ m.length * cols := by
            rw [← Nat.succ_mul]; exact Nat.mul_le_mul_right cols hi)]
      exact flatten_getD cols m hrow i j hi hjc
    rw [List.map_congr_left key, range_map_getD _ _ cols (by omega), ← hr,
      List.take_length, List.getD_eq_getElem _ _ hi]

theorem flatten_unflatten {α : Type} [Inhabited α] (rows cols : Nat)
    (v : List α) (h : rows * cols ≤ v.length) :
    (unflattenRows rows cols v).flatten = v.take (rows * cols) := by
  induction rows with
  | zero => simp [unflattenRows]
  | succ r ih =>
    have hr : r * cols ≤ v.length := by
      calc r * cols ≤ (r + 1) * cols := Nat.mul_le_mul_right cols (by omega)
        _ ≤ v.length := h
    have step : unflattenRows (r + 1) cols v =
        unflattenRows r cols v ++
          [(List.range cols).map (fun j => v.getD (r * cols + j) default)] := by
      unfold unflattenRows
      rw [List.range_succ, List.map_append]
      rfl
    rw [step, List.flatten_append, ih hr]
    simp only [List.flatten_cons, List.flatten_nil, List.append_nil]
    rw [range_map_getD_add v default (r * cols) cols
      (by rw [← Nat.succ_mul]; exact h)]
    rw [← List.take_add, ← Nat.succ_mul]

theorem take_drop_merge {α : Type} (v : List α) (a b : Nat) :
    v.take a ++ (v.drop a).take b = v.take (a + b) :=
  (List.take_add v a b).symm

theorem setWeights_getWeights {α : Type} [Inhabited α] (n : NeuralNetwork α)
    (h : WF n) : setWeights n (getWeights n) = n := by
  unfold WF at h
  obtain ⟨arch, m1, m2, m3, b1, b2, b3, li, lh1, lh2, lo⟩ := n
  obtain ⟨inS, h1S, h2S, oS⟩ := arch
  dsimp only at h
  obtain ⟨hm1, hm2, hm3, hb1, hb2, hb3⟩ := h
  have e1 := flattenRows_eq_flatten hm1
  have e2 := flattenRows_eq_flatten hm2
  have e3 := flattenRows_eq_flatten hm3
  have l1 := length_flatten_wf hm1
  have l2 := length_flatten_wf hm2
  have l3 := length_flatten_wf hm3
  simp only [setWeights, getWeights]
  rw [e1, e2, e3]
  simp only [List.append_assoc]
  have hd1 : List.drop (inS * h1S)
      (m1.flatten ++ (m2.flatten ++ (m3.flatten ++ (b1 ++ (b2 ++ b3))))) =
      m2.flatten ++ (m3.flatten ++ (b1 ++ (b2 ++ b3))) := List.drop_left' l1
  have hd2 : List.drop (inS * h1S + h1S * h2S)
      (m1.flatten ++ (m2.flatten ++ (m3.flatten ++ (b1 ++ (b2 ++ b3))))) =
      m3.flatten ++ (b1 ++ (b2 ++ b3)) := by
    rw [← List.drop_drop, hd1, List.drop_left' l2]
  have hd3 : List.drop (inS * h1S + h1S * h2S + h2S * oS)
      (m1.flatten ++ (m2.flatten ++ (m3.flatten ++ (b1 ++ (b2 ++ b3))))) =
      b1 ++ (b2 ++ b3) := by
    rw [← List.drop_drop, hd2, List.drop_left' l3]
  have hd4 : List.drop (inS * h1S + h1S * h2S + h2S * oS + h1S)
      (m1.flatten ++ (m2.flatten ++ (m3.flatten ++ (b1 ++ (b2 ++ b3))))) =
      b2 ++ b3 := by
    rw [← List.drop_drop, hd3, List.drop_left' hb1]
  have hd5 : List.drop (inS * h1S + h1S * h2S + h2S * oS + h1S + h2S)
      (m1.flatten ++ (m2.flatten ++ (m3.flatten ++ (b1 ++ (b2 ++ b3))))) =
      b3 := by
    rw [← List.drop_drop, hd4, List.drop_left' hb2]
  have fb1 : (List.range h1S).map (fun i =>
      (m1.flatten ++ (m2.flatten ++ (m3.flatten ++ (b1 ++ (b2 ++ b3))))).getD
        (inS * h1S + h1S * h2S + h2S * oS + i) default) = b1 := by
    have key : ∀ i ∈ List.range h1S,
        (m1.flatten ++ (m2.flatten ++ (m3.flatten ++ (b1 ++ (b2 ++ b3))))).getD
          (inS * h1S + h1S * h2S + h2S * oS + i) default = b1.getD i default := by
      intro i hi
      rw [← getD_drop _ default (inS * h1S + h1S * h2S + h2S * oS) i, hd3,
        List.getD_append _ _ _ _ (by rw [hb1]; exact List.mem_range.mp hi)]
    rw [List.map_congr_left key, range_map_getD _ _ _ (by omega), ← hb1,
      List.take_length]
  have fb2 : (List.range h2S).map (fun i =>
      (m1.flatten ++ (m2.flatten ++ (m3.flatten ++ (b1 ++ (b2 ++ b3))))).getD
        (inS * h1S + h1S * h2S + h2S * oS + h1S + i) default) = b2 := by
    have key : ∀ i ∈ List.range h2S,
        (m1.flatten ++ (m2.flatten ++ (m3.flatten ++ (b1 ++ (b2 ++ b3))))).getD
          (inS * h1S + h1S * h2S + h2S * oS + h1S + i) default =
          b2.getD i default := by
      intro i hi
      rw [← getD_drop _ default (inS * h1S + h1S * h2S + h2S * oS + h1S) i, hd4,
        List.getD_append _ _ _ _ (by rw [hb2]; exact List.mem_range.mp hi)]
    rw [List.map_congr_left key, range_map_getD _ _ _ (by omega), ← hb2,
      List.take_length]
  have fb3 : (List.range oS).map (fun i =>
      (m1.flatten ++ (m2.flatten ++ (m3.flatten ++ (b1 ++ (b2 ++ b3))))).getD
        (inS * h1S + h1S * h2S + h2S * oS + h1S + h2S + i) default) = b3 := by
    have key : ∀ i ∈ List.range oS,
        (m1.flatten ++ (m2.flatten ++ (m3.flatten ++ (b1 ++ (b2 ++ b3))))).getD
          (inS * h1S + h1S * h2S + h2S * oS + h1S + h2S + i) default =
          b3.getD i default := by
      intro i hi
      rw [← getD_drop _ default (inS * h1S + h1S * h2S + h2S * oS + h1S + h2S) i,
        hd5]
    rw [List.map_congr_left key, range_map_getD _ _ _ (by omega), ← hb3,
      List.take_length]
  rw [unflatten_flatten hm1, hd1, unflatten_flatten hm2, hd2,
    unflatten_flatten hm3, fb1, fb2, fb3]

theorem getWeights_setWeights {α : Type} [Inhabited α] (n : NeuralNetwork α)
    (v : List α) (hv : v.length = getTotalWeights n.architecture) :
    getWeights (setWeights n v) = v := by
  obtain ⟨arch, m1, m2, m3, b1, b2, b3, li, lh1, lh2, lo⟩ := n
  obtain ⟨inS, h1S, h2S, oS⟩ := arch
  simp only [getTotalWeights] at hv
  simp only [setWeights, getWeights]
  rw [flattenRows_eq_flatten (unflatten_wf inS h1S v),
    flattenRows_eq_flatten (unflatten_wf h1S h2S (v.drop (inS * h1S))),
    flattenRows_eq_flatten (unflatten_wf h2S oS
      (v.drop (inS * h1S + h1S * h2S)))]
  rw [flatten_unflatten inS h1S v (by omega),
    flatten_unflatten h1S h2S _ (by simp only [List.length_drop]; omega),
    flatten_unflatten h2S oS _ (by simp only [List.length_drop]; omega)]
  rw [range_map_getD_add v default (inS * h1S + h1S * h2S + h2S * oS) h1S
      (by omega),
    range_map_getD_add v default (inS * h1S + h1S * h2S + h2S * oS + h1S) h2S
      (by omega),
    range_map_getD_add v default
      (inS * h1S + h1S * h2S + h2S * oS + h1S + h2S) oS (by omega)]
  rw [take_drop_merge v (inS * h1S) (h1S * h2S),
    take_drop_merge v (inS * h1S + h1S * h2S) (h2S * oS),
    take_drop_merge v (inS * h1S + h1S * h2S + h2S * oS) h1S,
    take_drop_merge v (inS * h1S + h1S * h2S + h2S * oS + h1S) h2S,
    take_drop_merge v (inS * h1S + h1S * h2S + h2S * oS + h1S + h2S) oS]
  rw [show inS * h1S + h1S * h2S + h2S * oS + h1S + h2S + oS = v.length from by
    omega]
  exact List.take_length v

/-- C1: for a well-formed network, setWeights of getWeights restores the
network exactly, so every predict output is unchanged; and flattening the
result of unflattening any vector of the correct total length gives back
that vector. -/
theorem c1_weight_roundtrip {α : Type} [Inhabited α] [Add α] [Mul α]
    (n : NeuralNetwork α) (h : WF n) :
    setWeights n (getWeights n) = n ∧
    (∀ (act : α → α) (v : List α),
      predict act (setWeights n (getWeights n)) v = predict act n v) ∧
    (∀ v : List α, v.length = getTotalWeights n.architecture →
      getWeights (setWeights n v) = v) := by
  refine ⟨setWeights_getWeights n h, ?_, fun v hv => getWeights_setWeights n v hv⟩
  intro act v
  rw [setWeights_getWeights n h]

/-- Witness for C1 at a concrete network and weight vector. -/
theorem c1_weight_roundtrip_witness :
    setWeights sampleNet (getWeights sampleNet) = sampleNet ∧
    getWeights (setWeights sampleNet (List.replicate 6 (2 : ℤ))) =
      List.replicate 6 (2 : ℤ) := by
  have h := c1_weight_roundtrip (α := ℤ) sampleNet (by decide)
  exact ⟨h.1, h.2.2 (List.replicate 6 2) (by decide)⟩

/-- C2 as stated is false: with parent lengths 1 and 2 the only drawable
cut point is 1, and the child has length 2, not min(1, 2) = 1. -/
theorem c2_crossover_counterexample :
    drawablePoint (min (List.length [(0 : ℤ)]) (List.length [(1 : ℤ), 2])) 1 ∧
    (crossoverSinglePoint [(0 : ℤ)] [1, 2] 1).length ≠
      min (List.length [(0 : ℤ)]) (List.length [(1 : ℤ), 2]) := by
  decide

/-- C2 amended: for nonempty parents the child is the left segment of A
up to the cut point followed by the right segment of B, and its length is
len(B); this equals min(len(A), len(B)) whenever len(B) ≤ len(A), in
particular for the equal-length parents the genetic algorithm supplies. -/
theorem c2_crossover_child {α : Type} (a b : List α) (point : Nat)
    (hb : 1 ≤ b.length) (hba : b.length ≤ a.length)
    (hp : drawablePoint (min a.length b.length) point) :
    crossoverSinglePoint a b point = a.take point ++ b.drop point ∧
    (crossoverSinglePoint a b point).length = min a.length b.length := by
  obtain ⟨hp1, hp2⟩ := hp
  have hminr : min a.length b.length = b.length := Nat.min_eq_right hba
  rw [hminr] at hp2
  have hpb : point ≤ b.length :=
    le_trans hp2 (Nat.max_le.mpr ⟨hb, Nat.sub_le _ _⟩)
  have hne : ¬ (min a.length b.length = 0) := by
    rw [hminr]; omega
  have hx : crossoverSinglePoint a b point = a.take point ++ b.drop point := by
    unfold crossoverSinglePoint
    rw [if_neg hne]
  refine ⟨hx, ?_⟩
  rw [hx]
  simp only [List.length_append, List.length_take, List.length_drop]
  rw [hminr, Nat.min_eq_left (le_trans hpb hba)]
  omega

/-- Witness for the amended C2. -/
theorem c2_crossover_child_witness :
    crossoverSinglePoint [(0 : ℤ), 1, 2] [3, 4] 1 =
      List.take 1 [(0 : ℤ), 1, 2] ++ List.drop 1 [(3 : ℤ), 4] ∧
    (crossoverSinglePoint [(0 : ℤ), 1, 2] [3, 4] 1).length =
      min (List.length [(0 : ℤ), 1, 2]) (List.length [(3 : ℤ), 4]) :=
  c2_crossover_child [0, 1, 2] [3, 4] 1 (by decide) (by decide) (by decide)

/-- C7: the best-ever record never decreases, it changes only when the
incoming generation best strictly exceeds it, in which case it becomes
exactly the incoming fitness-and-weights pair, and it is non-decreasing
across any sequence of rollovers. -/
theorem c7_best_record {β : Type} [LinearOrder β] {α : Type}
    (rec cur : β × List α) :
    rec.1 ≤ (updateBest rec cur).1 ∧
    (updateBest rec cur ≠ rec → cur.1 > rec.1) ∧
    (cur.1 > rec.1 → updateBest rec cur = cur) ∧
    (¬ cur.1 > rec.1 → updateBest rec cur = rec) ∧
    (∀ gens : List (β × List α), rec.1 ≤ (gens.foldl updateBest rec).1) := by
  have hstep : ∀ (r c : β × List α), r.1 ≤ (updateBest r c).1 := by
    intro r c
    unfold updateBest
    split_ifs with h
    · exact le_of_lt h
    · exact le_refl _
  have hfold : ∀ (gens : List (β × List α)) (r : β × List α),
      r.1 ≤ (gens.foldl updateBest r).1 := by
    intro gens
    induction gens with
    | nil => intro r; exact le_refl _
    | cons g tl ih => intro r; exact le_trans (hstep r g) (ih _)
  refine ⟨hstep rec cur, ?_, ?_, ?_, fun gens => hfold gens rec⟩
  · intro hne
    by_contra hc
    unfold updateBest at hne
    rw [if_neg hc] at hne
    exact hne rfl
  · intro h
    unfold updateBest
    rw [if_pos h]
  · intro h
    unfold updateBest
    rw [if_neg h]

/-- Witness for C7. -/
theorem c7_best_record_witness :
    updateBest ((0 : ℤ), ([] : List ℤ)) (1, [5]) = (1, [5]) :=
  (c7_best_record ((0 : ℤ), ([] : List ℤ)) (1, [5])).2.2.1 (by decide)

/-- C9: predict fails with the ShapeMismatch error exactly when the input
length differs from the architecture input size, and otherwise returns an
output vector whose length is the architecture output size. -/
theorem c9_predict_shape {α : Type} [Inhabited α] [Add α] [Mul α]
    (act : α → α) (n : NeuralNetwork α) (v : List α) :
    (v.length ≠ n.architecture.inputSize →
      predict act n v = Except.error
        (PredictError.shapeMismatch n.architecture.inputSize v.length)) ∧
    (v.length = n.architecture.inputSize →
      ∃ p, predict act n v = Except.ok p ∧
        p.2.length = n.architecture.outputSize) := by
  constructor
  · intro h
    unfold predict
    rw [if_pos h]
  · intro h
    unfold predict
    rw [if_neg (fun hn => hn h)]
    exact ⟨_, rfl, by simp [layerForward]⟩

/-- Witness for C9 in both directions. -/
theorem c9_predict_shape_witness :
    predict (fun x => x) sampleNet ([] : List ℤ) =
      Except.error (PredictError.shapeMismatch 1 0) ∧
    ∃ p, predict (fun x => x) sampleNet ([1] : List ℤ) = Except.ok p ∧
      p.2.length = 1 :=
  ⟨(c9_predict_shape (fun x => x) sampleNet []).1 (by decide),
   (c9_predict_shape (fun x => x) sampleNet [1]).2 (by decide)⟩

/-- C10: a successful predict leaves the architecture, every weight
matrix, every bias vector, and hence getWeights unchanged; only the
cached activation vectors are replaced. -/
theorem c10_predict_frame {α : Type} [Inhabited α] [Add α] [Mul α]
    (act : α → α) (n n2 : NeuralNetwork α) (v out : List α)
    (h : predict act n v = Except.ok (n2, out)) :
    getWeights n2 = getWeights n ∧
    n2.architecture = n.architecture ∧
    n2.weightsIH1 = n.weightsIH1 ∧ n2.weightsH1H2 = n.weightsH1H2 ∧
    n2.weightsH2O = n.weightsH2O ∧ n2.biasH1 = n.biasH1 ∧
    n2.biasH2 = n.biasH2 ∧ n2.biasO = n.biasO ∧
    n2.lastInputs = v ∧ n2.lastOutputs = out := by
  unfold predict at h
  split_ifs at h with hc
  simp only [Except.ok.injEq, Prod.mk.injEq] at h
  obtain ⟨h1, h2⟩ := h
  subst h1
  subst h2
  exact ⟨rfl, rfl, rfl, rfl, rfl, rfl, rfl, rfl, rfl, rfl⟩

/-- Witness for C10 at a concrete successful inference. -/
theorem c10_predict_frame_witness :
    getWeights sampleNet2 = getWeights sampleNet ∧
    sampleNet2.architecture = sampleNet.architecture ∧
    sampleNet2.weightsIH1 = sampleNet.weightsIH1 ∧
    sampleNet2.weightsH1H2 = sampleNet.weightsH1H2 ∧
    sampleNet2.weightsH2O = sampleNet.weightsH2O ∧
    sampleNet2.biasH1 = sampleNet.biasH1 ∧
    sampleNet2.biasH2 = sampleNet.biasH2 ∧
    sampleNet2.biasO = sampleNet.biasO ∧
    sampleNet2.lastInputs = [1] ∧ sampleNet2.lastOutputs = [4] :=
  c10_predict_frame (fun x => x) sampleNet sampleNet2 [1] [4] (by rfl)

/-- Skipping non-overlapping pairs: the fine-phase loop result on a list
beginning with non-overlapping pairs is the result on the tail. -/
theorem firstHitKill_skip (t : TRex) (pre l : List (CollisionBox × CollisionBox))
    (hpre : ∀ q ∈ pre, ¬ boxesOverlap q.1 q.2) :
    firstHitKill t (pre ++ l) = firstHitKill t l := by
  induction pre with
  | nil => rfl
  | cons q tl ih =>
    obtain ⟨a, b⟩ := q
    have hstep : firstHitKill t (((a, b) :: tl) ++ l) =
        if boxesOverlap a b then { t with alive := false }
        else firstHitKill t (tl ++ l) := rfl
    rw [hstep, if_neg (hpre (a, b) (by simp))]
    exact ih (fun r hr => hpre r (by simp [hr]))

/-- C3 amended: when the broad phase passes and the fine-phase pair list
has a first overlapping pair, the agent comes out with alive set to false
and nothing else changed - in particular its status keeps its previous
value rather than becoming CRASHED - and the result does not depend on
the pairs after the first overlapping one (they are never examined). -/
theorem c3_collision_kill (ob : Obstacle) (t : TRex)
    (ha : t.alive = true)
    (hb : boxesOverlap (tRexOuterBox t) (obstacleOuterBox ob))
    (pre rest : List (CollisionBox × CollisionBox))
    (p : CollisionBox × CollisionBox)
    (hsplit : adjustedPairs t ob = pre ++ p :: rest)
    (hpre : ∀ q ∈ pre, ¬ boxesOverlap q.1 q.2)
    (hp : boxesOverlap p.1 p.2) :
    checkCollisionTRex ob t = { t with alive := false } ∧
    (checkCollisionTRex ob t).alive = false ∧
    (checkCollisionTRex ob t).status = t.status ∧
    ∀ rest2, firstHitKill t (pre ++ p :: rest2) = { t with alive := false } := by
  have hkill : ∀ rest2, firstHitKill t (pre ++ p :: rest2) =
      { t with alive := false } := by
    intro rest2
    rw [firstHitKill_skip t pre _ hpre]
    obtain ⟨a, b⟩ := p
    have hstep : firstHitKill t ((a, b) :: rest2) =
        if boxesOverlap a b then { t with alive := false }
        else firstHitKill t rest2 := rfl
    rw [hstep, if_pos hp]
  have hc : checkCollisionTRex ob t = { t with alive := false } := by
    unfold checkCollisionTRex
    rw [if_neg (by simp [ha]), if_pos hb, hsplit]
    exact hkill rest
  exact ⟨hc, by rw [hc], by rw [hc], hkill⟩

/-- Witness for the amended C3 at a concrete collision: a ducking agent
(one sub-hitbox) inside a one-box obstacle, so the overlapping pair is
the very first pair. -/
theorem c3_collision_kill_witness :
    checkCollisionTRex bigObstacle duckTRex =
      { duckTRex with alive := false } ∧
    (checkCollisionTRex bigObstacle duckTRex).alive = false ∧
    (checkCollisionTRex bigObstacle duckTRex).status = duckTRex.status ∧
    firstHitKill duckTRex
      ([] ++ [(CollisionBox.mk 51 111 55 25, CollisionBox.mk 50 93 44 47)]) =
      { duckTRex with alive := false } := by
  have h := c3_collision_kill bigObstacle duckTRex rfl
    (by norm_num [boxesOverlap, tRexOuterBox, obstacleOuterBox, duckTRex,
      crashTRex, bigObstacle, TREX_WIDTH, TREX_HEIGHT_DUCK])
    [] []
    (CollisionBox.mk 51 111 55 25, CollisionBox.mk 50 93 44 47)
    (by norm_num [adjustedPairs, tRexCollisionBoxes, DUCKING_COLLISION_BOXES,
      duckTRex, crashTRex, bigObstacle])
    (by simp)
    (by norm_num [boxesOverlap])
  exact ⟨h.1, h.2.1, h.2.2.1, h.2.2.2 []⟩

/-- C3 as stated also asserts a transition to CRASHED; that part is false:
the status field keeps its previous value (CRASHED is never assigned in
the source), concretely RUNNING here after a fatal collision. -/
theorem c3_status_counterexample :
    ((checkCollisions [crashObstacle] [crashTRex]).getD 0 default).alive = false ∧
    ((checkCollisions [crashObstacle] [crashTRex]).getD 0 default).status =
      TRexStatus.RUNNING ∧
    ((checkCollisions [crashObstacle] [crashTRex]).getD 0 default).status ≠
      TRexStatus.CRASHED := by
  norm_num [checkCollisions, checkCollisionTRex, firstHitKill, adjustedPairs,
    boxesOverlap, tRexOuterBox, obstacleOuterBox, tRexCollisionBoxes,
    RUNNING_COLLISION_BOXES, crashTRex, crashObstacle, TREX_WIDTH, TREX_HEIGHT]
  decide

/-- C4: evaluation of the shared-closure dDistance state at a failing
input.  With the nearest obstacle at distance 100 and the stored previous
distance 105, the first alive agent gets feature (105-100)*60/600 = 1/2
and the second gets 0 because the single shared slot was already
overwritten within the same tick; killing the first agent changes the
second agent's feature to 1/2, so the feature depends on the order in
which other agents are processed, contradicting the per-agent reading. -/
theorem c4_dDistance_shared :
    tickDDistances [true, true] (some 100) (some 105) =
      ([some (1/2), some 0], some 100) ∧
    (tickDDistances [false, true] (some 100) (some 105)).1 =
      [none, some (1/2)] := by
  norm_num [tickDDistances, dDistanceStep, FPS]

/-- A fold preserves any invariant its step preserves. -/
theorem foldl_preserve {σ ι : Type} (P : σ → Prop) (f : σ → ι → σ)
    (hf : ∀ s x, P s → P (f s x)) :
    ∀ (l : List ι) (s : σ), P s → P (l.foldl f s) := by
  intro l
  induction l with
  | nil => exact fun s hs => hs
  | cons x tl ih => exact fun s hs => ih _ (hf s x hs)

/-- A dead agent is skipped by the physics update. -/
theorem updateAliveTRex_dead (dt now : ℚ) (t : TRex) (h : t.alive = false) :
    updateAliveTRex dt now t = t := by
  unfold updateAliveTRex
  rw [if_pos (by simp [h])]

/-- A dead agent is skipped by collision handling. -/
theorem checkCollisionTRex_dead (ob : Obstacle) (t : TRex)
    (h : t.alive = false) : checkCollisionTRex ob t = t := by
  unfold checkCollisionTRex
  rw [if_pos (by simp [h])]

/-- The fitness loop never writes the cell of a dead agent. -/
theorem fitnessLoop_dead (tRexes : List TRex) (act : Nat → Nat)
    (dt speed : ℚ) (closest : Option Obstacle) (minDist : ℚ)
    (fitness : List ℚ) (obstacles : List Obstacle) (i : Nat) (t : TRex)
    (hi : tRexes[i]? = some t) (hd : t.alive = false) :
    (fitnessLoop tRexes act dt speed closest minDist
      fitness obstacles).1[i]? = fitness[i]? := by
  have hgetD : tRexes.getD i default = t := by
    rw [List.getD_eq_getElem?_getD, hi]
    rfl
  unfold fitnessLoop
  refine foldl_preserve (fun st => st.1[i]? = fitness[i]?) _
    ?_ (List.range tRexes.length) (fitness, obstacles) rfl
  intro st j hst
  dsimp only
  split_ifs with halive
  · have hji : j ≠ i := by
      intro hji
      subst hji
      rw [hgetD, hd] at halive
      exact absurd halive (by simp)
    rw [List.getElem?_set_ne hji]
    exact hst
  · exact hst

/-- One tick leaves a dead agent and its fitness cell untouched. -/
theorem simTick_dead (o : TickOracle) (s : SimState) (i : Nat) (t : TRex)
    (hi : s.tRexes[i]? = some t) (hd : t.alive = false) :
    (simTick o s).fitness[i]? = s.fitness[i]? ∧
    (simTick o s).tRexes[i]? = some t := by
  constructor
  · exact fitnessLoop_dead s.tRexes o.act o.deltaTime o.speed _ _ s.fitness
      s.obstacles i t hi hd
  · show (let tRexes2 := updateAllTRexes o.deltaTime o.now s.tRexes
          let obstacles3 := o.obsUpdate (fitnessLoop s.tRexes o.act o.deltaTime
            o.speed ((globalClosest s.obstacles).map Prod.fst) _ s.fitness s.obstacles).2
          if o.collisionsEnabled then checkCollisions obstacles3 tRexes2
          else tRexes2)[i]? = some t
    have h2 : (updateAllTRexes o.deltaTime o.now s.tRexes)[i]? = some t := by
      unfold updateAllTRexes
      rw [List.getElem?_map, hi]
      simp [updateAliveTRex_dead o.deltaTime o.now t hd]
    by_cases hcol : o.collisionsEnabled
    · rw [if_pos hcol]
      cases hobs : o.obsUpdate (fitnessLoop s.tRexes o.act o.deltaTime o.speed
          ((globalClosest s.obstacles).map Prod.fst) _ s.fitness s.obstacles).2 with
      | nil =>
        simp only [checkCollisions]
        exact h2
      | cons ob tl =>
        simp only [checkCollisions]
        split_ifs with hrm
        · exact h2
        · rw [List.getElem?_map, h2]
          simp [checkCollisionTRex_dead ob t hd]
    · rw [if_neg hcol]
      exact h2

/-- C8: once an agent is dead, no sequence of simulation ticks changes its
fitness cell, and the agent record itself (in particular the alive flag)
stays exactly as it was at death. -/
theorem c8_dead_fitness_frozen (os : List TickOracle) (s : SimState) (i : Nat)
    (t : TRex) (hi : s.tRexes[i]? = some t) (hd : t.alive = false) :
    (os.foldl (fun st o => simTick o st) s).fitness[i]? =
      s.fitness[i]? ∧
    (os.foldl (fun st o => simTick o st) s).tRexes[i]? = some t := by
  induction os generalizing s with
  | nil => exact ⟨rfl, hi⟩
  | cons o tl ih =>
    obtain ⟨h1, h2⟩ := simTick_dead o s i t hi hd
    obtain ⟨h3, h4⟩ := ih (simTick o s) h2
    exact ⟨h3.trans h1, h4⟩

/-- Witness for C8: a one-agent dead state stepped by one concrete tick. -/
theorem c8_dead_fitness_frozen_witness :
    ([sampleTick].foldl (fun st o => simTick o st) deadState).fitness[0]? =
      deadState.fitness[0]? ∧
    ([sampleTick].foldl (fun st o => simTick o st) deadState).tRexes[0]? =
      some { crashTRex with alive := false } :=
  c8_dead_fitness_frozen [sampleTick] deadState 0
    { crashTRex with alive := false } rfl rfl

/-- One diversity-loop iteration never pushes the accumulator past the
population size. -/
theorem diversityStep_length_le {α : Type} [Inhabited α]
    (networks : List (NeuralNetwork α)) (shuffled : List Nat)
    (bestIdx popSize : Nat) (acc : List (NeuralNetwork α)) (i : Nat)
    (h : acc.length ≤ popSize) :
    (diversityStep networks shuffled bestIdx popSize acc i).length ≤ popSize := by
  simp only [diversityStep]
  split_ifs with h1 h2
  · simp only [List.length_append, List.length_cons, List.length_nil]
    omega
  · exact h
  · exact h

/-- Each diversity-loop iteration only appends. -/
theorem diversityStep_extends {α : Type} [Inhabited α]
    (networks : List (NeuralNetwork α)) (shuffled : List Nat)
    (bestIdx popSize : Nat) (acc : List (NeuralNetwork α)) (i : Nat) :
    ∃ tl, diversityStep networks shuffled bestIdx popSize acc i = acc ++ tl := by
  simp only [diversityStep]
  split_ifs with h1 h2
  · exact ⟨_, rfl⟩
  · exact ⟨[], (List.append_nil acc).symm⟩
  · exact ⟨[], (List.append_nil acc).symm⟩

/-- A fold whose step only appends only appends. -/
theorem foldl_extends {σ ι : Type} (f : List σ → ι → List σ)
    (hf : ∀ acc x, ∃ tl, f acc x = acc ++ tl) :
    ∀ (l : List ι) (acc : List σ), ∃ tl, l.foldl f acc = acc ++ tl := by
  intro l
  induction l with
  | nil => exact fun acc => ⟨[], (List.append_nil acc).symm⟩
  | cons x xs ih =>
    intro acc
    obtain ⟨t1, h1⟩ := hf acc x
    obtain ⟨t2, h2⟩ := ih (f acc x)
    exact ⟨t1 ++ t2, by rw [List.foldl_cons, h2, h1, List.append_assoc]⟩

/-- The offspring while-loop stops exactly at the population size when
given sufficient fuel. -/
theorem fillOffspring_length {α : Type} [Inhabited α] [Add α] [Mul α]
    (pool : List (NeuralNetwork α)) (o : GAOracle α) (popSize : Nat) :
    ∀ (fuel : Nat) (acc : List (NeuralNetwork α)),
      popSize - acc.length ≤ fuel → acc.length ≤ popSize →
      (fillOffspring pool o popSize fuel acc).length = popSize := by
  intro fuel
  induction fuel with
  | zero =>
    intro acc hf h
    show acc.length = popSize
    omega
  | succ k ih =>
    intro acc hf h
    show (if acc.length < popSize then
        fillOffspring pool o popSize k
          (acc ++ [offspringChild pool o acc.length])
      else acc).length = popSize
    split_ifs with hlt
    · apply ih
      · simp only [List.length_append, List.length_cons, List.length_nil]
        omega
      · simp only [List.length_append, List.length_cons, List.length_nil]
        omega
    · omega

/-- The offspring while-loop only appends. -/
theorem fillOffspring_extends {α : Type} [Inhabited α] [Add α] [Mul α]
    (pool : List (NeuralNetwork α)) (o : GAOracle α) (popSize : Nat) :
    ∀ (fuel : Nat) (acc : List (NeuralNetwork α)),
      ∃ tl, fillOffspring pool o popSize fuel acc = acc ++ tl := by
  intro fuel
  induction fuel with
  | zero =>
    intro acc
    exact ⟨[], (List.append_nil acc).symm⟩
  | succ k ih =>
    intro acc
    show ∃ tl, (if acc.length < popSize then
        fillOffspring pool o popSize k
          (acc ++ [offspringChild pool o acc.length])
      else acc) = acc ++ tl
    split_ifs with hlt
    · obtain ⟨tl, htl⟩ := ih (acc ++ [offspringChild pool o acc.length])
      refine ⟨offspringChild pool o acc.length :: tl, ?_⟩
      rw [htl, List.append_assoc]
      rfl
    · exact ⟨[], (List.append_nil acc).symm⟩

/-- C5: one generation rollover produces exactly as many networks as it
consumed, for every outcome of the random draws, and hence the population
size is constant across any sequence of rollovers. -/
theorem c5_population_size {α β : Type} [Inhabited α] [Add α] [Mul α]
    [LinearOrder β] [Inhabited β]
    (networks : List (NeuralNetwork α)) (fitness : List β) (o : GAOracle α)
    (h : 1 ≤ networks.length) :
    (nextGeneration networks fitness o).length = networks.length ∧
    ∀ steps : List (List β × GAOracle α),
      (steps.foldl (fun nets st => nextGeneration nets st.1 st.2)
        networks).length = networks.length := by
  have hone : ∀ (nets : List (NeuralNetwork α)) (fit : List β)
      (oc : GAOracle α), 1 ≤ nets.length →
      (nextGeneration nets fit oc).length = nets.length := by
    intro nets fit oc h1
    unfold nextGeneration
    have hsurv : ((List.range (nets.length / 10)).foldl
        (diversityStep nets oc.shuffled (bestIndex fit) nets.length)
        [clone (nets.getD (bestIndex fit) default)]).length ≤ nets.length := by
      refine foldl_preserve
        (fun (acc : List (NeuralNetwork α)) => acc.length ≤ nets.length) _
        ?_ _ _ (by simpa using h1)
      intro acc x hacc
      exact diversityStep_length_le nets oc.shuffled _ _ acc x hacc
    exact fillOffspring_length _ _ _ _ _ (Nat.sub_le _ _) hsurv
  have hmulti : ∀ (steps : List (List β × GAOracle α))
      (nets : List (NeuralNetwork α)), 1 ≤ nets.length →
      (steps.foldl (fun ns st => nextGeneration ns st.1 st.2) nets).length =
        nets.length := by
    intro steps
    induction steps with
    | nil => intro nets _; rfl
    | cons st tl ih =>
      intro nets h1
      rw [List.foldl_cons,
        ih _ (by rw [hone nets st.1 st.2 h1]; exact h1),
        hone nets st.1 st.2 h1]
  exact ⟨hone networks fitness o h, fun steps => hmulti steps networks h⟩

/-- Witness for C5 at a concrete two-network population. -/
theorem c5_population_size_witness :
    (nextGeneration cNets cFits cOracle).length = cNets.length ∧
    ([((cFits : List ℤ), cOracle)].foldl
      (fun nets st => nextGeneration nets st.1 st.2) cNets).length =
      cNets.length := by
  have h := c5_population_size cNets cFits cOracle (by decide)
  exact ⟨h.1, h.2 [(cFits, cOracle)]⟩

/-- The fold computing the best index dominates its start and every
visited index in fitness. -/
theorem bestFold_ge {β : Type} [LinearOrder β] [Inhabited β] (fitness : List β) :
    ∀ (l : List Nat) (b : Nat),
      fitness.getD b default ≤
        fitness.getD (l.foldl (fun best i =>
          if fitness.getD i default > fitness.getD best default then i
          else best) b) default ∧
      ∀ j ∈ l, fitness.getD j default ≤
        fitness.getD (l.foldl (fun best i =>
          if fitness.getD i default > fitness.getD best default then i
          else best) b) default := by
  intro l
  induction l with
  | nil =>
    intro b
    exact ⟨le_refl _, by simp⟩
  | cons x xs ih =>
    intro b
    simp only [List.foldl_cons]
    have hx := ih (if fitness.getD x default > fitness.getD b default then x
      else b)
    have hbx : fitness.getD b default ≤ fitness.getD
        (if fitness.getD x default > fitness.getD b default then x else b)
        default := by
      split_ifs with hgt
      · exact le_of_lt hgt
      · exact le_refl _
    have hxx : fitness.getD x default ≤ fitness.getD
        (if fitness.getD x default > fitness.getD b default then x else b)
        default := by
      split_ifs with hgt
      · exact le_refl _
      · exact le_of_not_lt hgt
    constructor
    · exact le_trans hbx hx.1
    · intro j hj
      rcases List.mem_cons.mp hj with rfl | hj2
      · exact le_trans hxx hx.1
      · exact hx.2 j hj2

/-- The fold computing the best index lands on its start or a visited
index. -/
theorem bestFold_mem {β : Type} [LinearOrder β] [Inhabited β] (fitness : List β) :
    ∀ (l : List Nat) (b : Nat),
      l.foldl (fun best i =>
        if fitness.getD i default > fitness.getD best default then i
        else best) b = b ∨
      l.foldl (fun best i =>
        if fitness.getD i default > fitness.getD best default then i
        else best) b ∈ l := by
  intro l
  induction l with
  | nil => intro b; exact Or.inl rfl
  | cons x xs ih =>
    intro b
    simp only [List.foldl_cons]
    rcases ih (if fitness.getD x default > fitness.getD b default then x
      else b) with h | h
    · rw [h]
      split_ifs with hgt
      · exact Or.inr (by simp)
      · exact Or.inl rfl
    · exact Or.inr (List.mem_cons_of_mem x h)

/-- The best index is a valid index of a nonempty fitness list. -/
theorem bestIndex_lt {β : Type} [LinearOrder β] [Inhabited β]
    (fitness : List β) (h : 1 ≤ fitness.length) :
    bestIndex fitness < fitness.length := by
  unfold bestIndex
  rcases bestFold_mem fitness (List.range fitness.length) 0 with hm | hm
  · rw [hm]
    omega
  · exact List.mem_range.mp hm

/-- The best index carries maximal fitness. -/
theorem bestIndex_max {β : Type} [LinearOrder β] [Inhabited β]
    (fitness : List β) :
    ∀ j < fitness.length,
      fitness.getD j default ≤ fitness.getD (bestIndex fitness) default := by
  intro j hj
  unfold bestIndex
  exact (bestFold_ge fitness (List.range fitness.length) 0).2 j
    (List.mem_range.mpr hj)

/-- The row-major traversal always has length rows times cols. -/
theorem flattenRows_length {α : Type} [Inhabited α] (rows cols : Nat)
    (m : List (List α)) : (flattenRows rows cols m).length = rows * cols := by
  unfold flattenRows
  rw [List.length_flatten, List.map_map]
  have hconst : ((List.range rows).map (List.length ∘ fun i =>
      (List.range cols).map fun j => (m.getD i []).getD j default)) =
      (List.range rows).map (fun _ => cols) := by
    apply List.map_congr_left
    intro i _
    simp [Function.comp]
  rw [hconst, List.map_const', List.length_range, List.sum_replicate,
    smul_eq_mul]

/-- A well-formed network flattens to the architecture total. -/
theorem getWeights_length {α : Type} [Inhabited α] (n : NeuralNetwork α)
    (h : WF n) : (getWeights n).length = getTotalWeights n.architecture := by
  unfold WF at h
  obtain ⟨h1, h2, h3, hb1, hb2, hb3⟩ := h
  simp only [getWeights, getTotalWeights, List.length_append,
    flattenRows_length]
  omega

/-- A clone of a well-formed network has identical flat weights. -/
theorem getWeights_clone {α : Type} [Inhabited α] (n : NeuralNetwork α)
    (h : WF n) : getWeights (clone n) = getWeights n := by
  unfold clone networkFromFlat
  exact getWeights_setWeights _ _ (getWeights_length n h)

/-- Slot 0 of the next population is always the elite clone. -/
theorem nextGeneration_head {α β : Type} [Inhabited α] [Add α] [Mul α]
    [LinearOrder β] [Inhabited β]
    (networks : List (NeuralNetwork α)) (fitness : List β) (o : GAOracle α) :
    (nextGeneration networks fitness o).getD 0 default =
      clone (networks.getD (bestIndex fitness) default) := by
  unfold nextGeneration
  obtain ⟨t1, h1⟩ := foldl_extends
    (diversityStep networks o.shuffled (bestIndex fitness) networks.length)
    (fun acc x => diversityStep_extends networks o.shuffled _ _ acc x)
    (List.range (networks.length / 10))
    [clone (networks.getD (bestIndex fitness) default)]
  obtain ⟨t2, h2⟩ := fillOffspring_extends
    (buildParentsPool networks fitness (max 2 (networks.length / 4))
      o.tournamentDraw) o networks.length networks.length
    ((List.range (networks.length / 10)).foldl
      (diversityStep networks o.shuffled (bestIndex fitness) networks.length)
      [clone (networks.getD (bestIndex fitness) default)])
  rw [h2, h1, List.singleton_append, List.cons_append, List.getD_cons_zero]

/-- C6 amended: slot 0 of the next population is an exact clone of the
agent at the best index (identical flat weights), and the best index is
fitness-maximal; the exactly-one part of the claim is dropped because
other slots can hold exact copies of the same weights. -/
theorem c6_elite_slot {α β : Type} [Inhabited α] [Add α] [Mul α]
    [LinearOrder β] [Inhabited β]
    (networks : List (NeuralNetwork α)) (fitness : List β) (o : GAOracle α)
    (hwf : WF (networks.getD (bestIndex fitness) default)) :
    (nextGeneration networks fitness o).getD 0 default =
      clone (networks.getD (bestIndex fitness) default) ∧
    getWeights ((nextGeneration networks fitness o).getD 0 default) =
      getWeights (networks.getD (bestIndex fitness) default) ∧
    ∀ j < fitness.length,
      fitness.getD j default ≤ fitness.getD (bestIndex fitness) default := by
  have hh := nextGeneration_head networks fitness o
  refine ⟨hh, ?_, bestIndex_max fitness⟩
  rw [hh]
  exact getWeights_clone _ hwf

/-- Witness for the amended C6 at the concrete two-network population. -/
theorem c6_elite_slot_witness :
    (nextGeneration cNets cFits cOracle).getD 0 default =
      clone (cNets.getD (bestIndex cFits) default) ∧
    getWeights ((nextGeneration cNets cFits cOracle).getD 0 default) =
      getWeights (cNets.getD (bestIndex cFits) default) ∧
    cFits.getD 0 default ≤ cFits.getD (bestIndex cFits) default := by
  have h := c6_elite_slot cNets cFits cOracle (by decide)
  exact ⟨h.1, h.2.1, h.2.2 0 (by decide)⟩

set_option maxRecDepth 20000 in
/-- C6 as stated is false in its uniqueness part: with two
identical-weight parents, the offspring of two tournament copies of the
best, cut anywhere, with no mutation coin firing, carries exactly the
best weights, so slot 1 also holds an exact copy of them. -/
theorem c6_elite_not_unique :
    (nextGeneration cNets cFits cOracle).length = 2 ∧
    getWeights ((nextGeneration cNets cFits cOracle).getD 1 default) =
      getWeights (cNets.getD (bestIndex cFits) default) ∧
    (1 : Nat) ≠ 0 := by
  decide

end Dino
